import Mathlib

/-!
Verification development for the dynamic-components ECS example
(`examples/ecs/dynamic.rs`): a dynamic component schema registry, a
type-erased entity store, and a query engine with Presence/Read/Write
access modes.

The command handlers (`c`/`s`/`q` branches of `main`) and the parsing
functions `parse_term` / `parse_query` are translated directly from the
source. The ECS engine the example drives (`World`,
`init_component_with_descriptor`, `insert_by_ids`, `QueryBuilder`,
filtered-entity iteration) is library code not contained in the source
tree, so those parts are modelled from the specification, as marked on
each definition.

Machine integers: component buffers are sequences of 8-byte unsigned
units; increments are taken modulo `2 ^ 64`.
-/

set_option autoImplicit false

namespace DynamicEcs

/-- Access mode of a query term: `with_id` adds a Presence term, `ref_id`
a Read term, `mut_id` a Write term. -/
inductive Access where
  | presence
  | read
  | write
deriving DecidableEq, Repr

/-- Atomic predicate term: component identity, access mode, optional flag. -/
structure Term where
  id : Nat
  access : Access
  opt : Bool
deriving DecidableEq, Repr

/-- Modelled from the spec: a predicate is a top-level conjunction of
groups; each group is a disjunction of terms (a group holding a single
term is an ordinary conjunct; a group built by `or` matches when any of
its alternatives is satisfied). -/
abbrev Pred := List (List Term)

/-- Modelled from the spec: the state of bevy's `QueryBuilder` as driven
by the example. `groups` are the conjuncts built so far, `curOr` collects
the alternatives of an open `or` group, `optFlag` marks terms added
inside an `optional` scope, and `conflict` records a build-time
`ConflictingAccess` violation (same identity requested under two access
modes, spec section 5 and section 7). -/
structure QueryBuilder where
  groups : List (List Term)
  curOr : Option (List Term)
  optFlag : Bool
  conflict : Bool
deriving DecidableEq, Repr

/-- Fresh builder, as produced by `QueryBuilder::new`. -/
def initBuilder : QueryBuilder := ⟨[], none, false, false⟩

/-- All terms currently recorded in the builder. -/
def allTerms (b : QueryBuilder) : List Term :=
  b.groups.flatten ++ b.curOr.getD []

/-- Modelled from the spec: adding one term to the builder. Inside an
`or` scope the term becomes a new alternative of the open group;
otherwise it becomes a new singleton conjunct. Requesting an identity
already present under a different access mode sets the `conflict` flag
(spec: a component can be required by only one access mode per query
predicate; conflicting access is rejected at build time). -/
def addTerm (b : QueryBuilder) (id : Nat) (a : Access) : QueryBuilder :=
  let clash := (allTerms b).any (fun t => t.id == id && !(t.access == a))
  let t : Term := ⟨id, a, b.optFlag⟩
  match b.curOr with
  | some ts => { b with curOr := some (ts ++ [t]), conflict := b.conflict || clash }
  | none => { b with groups := b.groups ++ [[t]], conflict := b.conflict || clash }

/-- Builder call `with_id`: Presence term. -/
def with_id (b : QueryBuilder) (id : Nat) : QueryBuilder :=
  addTerm b id Access.presence

/-- Builder call `ref_id`: Read term. -/
def ref_id (b : QueryBuilder) (id : Nat) : QueryBuilder :=
  addTerm b id Access.read

/-- Builder call `mut_id`: Write term. -/
def mut_id (b : QueryBuilder) (id : Nat) : QueryBuilder :=
  addTerm b id Access.write

/-- Modelled from the spec: the terminal `build` operation produces the
compiled predicate, rejecting a builder that recorded a
`ConflictingAccess` violation. -/
def build (b : QueryBuilder) : Option Pred :=
  if b.conflict then none else some b.groups

/-- Layout Descriptor: size in bytes and alignment. -/
structure Layout where
  size : Nat
  align : Nat
deriving DecidableEq, Repr

/-- Translation of `Layout::array::<u64>(size)`: `8 * size` bytes with
8-byte alignment. -/
def layoutArrayU64 (n : Nat) : Layout := ⟨8 * n, 8⟩

/-- Component info held by the registry: display name and layout, as in
`ComponentDescriptor::new_with_layout(name, ..., layout, ...)`. -/
structure ComponentInfo where
  name : String
  layout : Layout
deriving DecidableEq, Repr

/-- An entity: its identity and its component buffers, each buffer a list
of 8-byte unsigned units keyed by component identity. -/
structure Entity where
  id : Nat
  comps : List (Nat × List Nat)
deriving DecidableEq, Repr

/-- Modelled from the spec: the world owns the component registry and the
entity store. Identities are minted from monotone counters; the registry
and store grow monotonically. Newly registered entries are consed to the
front so that lookups find the most recent registration. -/
structure World where
  nextComponentId : Nat
  registry : List (Nat × ComponentInfo)
  nextEntityId : Nat
  entities : List Entity
deriving DecidableEq, Repr

/-- The interpreter state of `main`: the world plus the two bookkeeping
maps `component_names : name -> id` and `component_info : id -> info`. -/
structure AppState where
  world : World
  componentNames : List (String × Nat)
  componentInfo : List (Nat × ComponentInfo)
deriving DecidableEq, Repr

/-- Empty world and empty maps, as at the top of `main`. -/
def emptyApp : AppState := ⟨⟨0, [], 0, []⟩, [], []⟩

/-- Modelled from the spec: `init_component_with_descriptor` mints a
fresh identity and records the descriptor; registration always
succeeds. -/
def initComponent (w : World) (info : ComponentInfo) : Nat × World :=
  (w.nextComponentId,
   { w with
      nextComponentId := w.nextComponentId + 1
      registry := (w.nextComponentId, info) :: w.registry })

/-- Registry lookup `world.components().get_info(id)` (the spec's
`describe`). -/
def getInfo (w : World) (id : Nat) : Option ComponentInfo :=
  (w.registry.find? (fun c => c.1 == id)).map (fun c => c.2)

/-- Name lookup in an association map, most recent entry first (`HashMap`
insert overwrites, so the front entry is the current binding). -/
def lookupName (m : List (String × Nat)) (k : String) : Option Nat :=
  (m.find? (fun c => c.1 == k)).map (fun c => c.2)

/-- Translation of one entry of the `c` command: register a component
named `name` whose layout is `Layout::array::<u64>(size)` and record it
in both interpreter maps. Returns the new state and the fresh identity. -/
def createComponent (a : AppState) (name : String) (size : Nat) : AppState × Nat :=
  let info : ComponentInfo := ⟨name, layoutArrayU64 size⟩
  let r := initComponent a.world info
  (⟨r.2, (name, r.1) :: a.componentNames, (r.1, info) :: a.componentInfo⟩, r.1)

/-- Translation of the buffer construction in the `s` command: the value
list is truncated to `len` units (`.take(len)`) and the allocation is
zeroed (`alloc_zeroed`), so missing trailing units are zero. -/
def mkBuffer (len : Nat) (vals : List Nat) : List Nat :=
  vals.take len ++ List.replicate (len - vals.length) 0

/-- Translation of the component-resolution loop of the `s` command:
unknown names are reported and skipped, resolvable entries contribute
`(id, buffer)` with the buffer sized from the registered layout
(`len = size / size_of::<u64>()`). Returns the buffers to insert and the
report messages, in input order. The registry lookup for a resolved
identity cannot fail (the name map only holds registered identities);
the code unwraps it, so the impossible branch contributes nothing. -/
def spawnFold (a : AppState) : List (String × List Nat) → List (Nat × List Nat) × List String
  | [] => ([], [])
  | (name, vals) :: rest =>
    let tail := spawnFold a rest
    match lookupName a.componentNames name with
    | none => (tail.1, ("Component " ++ name ++ " does not exist") :: tail.2)
    | some id =>
      match getInfo a.world id with
      | none => tail
      | some info => ((id, mkBuffer (info.layout.size / 8) vals) :: tail.1, tail.2)

/-- Translation of the `s` command: resolve the requested components,
then unconditionally spawn one new entity (`world.spawn_empty()` runs
regardless of resolution failures) carrying the resolved buffers
(`insert_by_ids`, modelled from the spec as installing exactly the
supplied buffers). Returns the new state, the new entity id, and the
report messages. -/
def spawnCommand (a : AppState) (request : List (String × List Nat)) :
    AppState × Nat × List String :=
  let r := spawnFold a request
  let e : Entity := ⟨a.world.nextEntityId, r.1⟩
  (⟨{ a.world with
        nextEntityId := a.world.nextEntityId + 1
        entities := a.world.entities ++ [e] },
    a.componentNames, a.componentInfo⟩,
   a.world.nextEntityId, r.2)

/-- Presence check `entity.comps` contains the component identity. -/
def Entity.has (e : Entity) (id : Nat) : Bool :=
  e.comps.any (fun c => c.1 == id)

/-- Buffer lookup on an entity. -/
def lookupComp (e : Entity) (id : Nat) : Option (List Nat) :=
  (e.comps.find? (fun c => c.1 == id)).map (fun c => c.2)

/-- Modelled from the spec: an optional term never constrains matching; a
mandatory term requires the component to be present. -/
def termSat (e : Entity) (t : Term) : Bool :=
  t.opt || e.has t.id

/-- Modelled from the spec: a disjunctive group is satisfied when at
least one of its alternatives has all of its non-optional terms present
(each alternative here is a single term). -/
def groupSat (e : Entity) (g : List Term) : Bool :=
  g.any (termSat e)

/-- Modelled from the spec: an entity matches the predicate when every
top-level conjunct (group) is satisfied. -/
def predMatch (e : Entity) (p : Pred) : Bool :=
  p.all (groupSat e)

/-- Identities the compiled query holds with Write access
(`filtered_entity.access().has_write(id)`). -/
def writeIds (p : Pred) : List Nat :=
  (p.flatten.filter (fun t => t.access == Access.write)).map (fun t => t.id)

/-- Translation of the Write mutation of the `q` command: every 8-byte
unit of the buffer is incremented by one; u64 arithmetic wraps on
overflow, hence the reduction modulo `2 ^ 64`. -/
def incBuf (buf : List Nat) : List Nat :=
  buf.map (fun v => (v + 1) % 2 ^ 64)

/-- Apply the Write mutation to every buffer of the entity whose
component is held with Write access; other buffers are untouched. -/
def applyWrites (e : Entity) (wids : List Nat) : Entity :=
  ⟨e.id, e.comps.map (fun c => if wids.contains c.1 then (c.1, incBuf c.2) else c)⟩

/-- One entity's worth of query execution: a matching entity has its
write-held buffers incremented, a non-matching entity is untouched. -/
def stepEntity (p : Pred) (e : Entity) : Entity :=
  if predMatch e p then applyWrites e (writeIds p) else e

/-- One view of a row: component identity, access mode, and the data
shown for it (no data for a Presence view). -/
structure View where
  id : Nat
  access : Access
  values : Option (List Nat)
deriving DecidableEq, Repr

/-- One matched row: the entity and its views. -/
structure Row where
  entity : Nat
  views : List View
deriving DecidableEq, Repr

/-- Modelled from the spec: the row for a matching entity holds one view
per term whose component is actually present (including optional terms
that happen to be present), tagged with the access mode; Presence views
carry no data, Read and Write views show the buffer as it stands after
the Write mutation. -/
def mkRow (p : Pred) (e : Entity) : Row :=
  ⟨e.id,
   p.flatten.filterMap (fun t =>
     (lookupComp e t.id).map (fun buf =>
       ⟨t.id, t.access, if t.access == Access.presence then none else some buf⟩))⟩

/-- Modelled from the spec: query execution visits entities in store
order; each matching entity is mutated through its Write views and
yields one row built from the post-mutation buffers. Returns the updated
store and the rows. -/
def runQuery (p : Pred) (es : List Entity) : List Entity × List Row :=
  (es.map (stepEntity p),
   (es.filter (fun e => predMatch e p)).map (fun e => mkRow p (applyWrites e (writeIds p))))

/-- Display name of a component (`component_info.get(&id).unwrap().name()`). -/
def nameOf (infoMap : List (Nat × ComponentInfo)) (id : Nat) : String :=
  ((infoMap.find? (fun c => c.1 == id)).map (fun c => c.2.name)).getD ""

/-- Translation of the per-view display `format!("{}: {:?}", name, data)`;
Presence views carry no data and are not displayed. -/
def displayView (infoMap : List (Nat × ComponentInfo)) (v : View) : Option String :=
  v.values.map (fun vals => nameOf infoMap v.id ++ ": " ++ toString vals)

/-- Translation of the row display: the views joined by a comma (the
entity-id prefix of the printed line is library `Debug` formatting,
outside the core per the spec). -/
def displayRow (infoMap : List (Nat × ComponentInfo)) (r : Row) : String :=
  String.intercalate ", " (r.views.filterMap (displayView infoMap))

/-- Both-ends whitespace trim on a character list (Rust `str::trim`). -/
def trimChars (cs : List Char) : List Char :=
  ((cs.dropWhile Char.isWhitespace).reverse.dropWhile Char.isWhitespace).reverse

/-- Splitting on a separator character (Rust `str::split(c)`): adjacent
separators and boundary separators yield empty pieces. -/
def splitOnCharAux (sep : Char) : List Char → List Char → List (List Char)
  | [], acc => [acc.reverse]
  | c :: rest, acc =>
    if c == sep then acc.reverse :: splitOnCharAux sep rest []
    else splitOnCharAux sep rest (c :: acc)

/-- Splitting on a separator character, entry point. -/
def splitOnChar (sep : Char) (cs : List Char) : List (List Char) :=
  splitOnCharAux sep cs []

/-- Splitting on the two-character separator `||` (Rust
`str::split("||")`), scanning left to right without overlap. -/
def splitOnPipes : List Char → List Char → List (List Char)
  | [], acc => [acc.reverse]
  | '|' :: '|' :: rest, acc => acc.reverse :: splitOnPipes rest []
  | c :: rest, acc => splitOnPipes rest (c :: acc)

/-- Rust `str::split_whitespace`: split on whitespace and drop empty
pieces. -/
def splitWhitespaceChars (cs : List Char) : List String :=
  ((splitOnCharAux ' ' (cs.map (fun c => if c.isWhitespace then ' ' else c)) []).map
      (fun w => String.mk w)).filter (fun w => !(w == ""))

/-- Report text printed by `parse_term` when a term fails to resolve. -/
def unableMsg (t : List Char) : String :=
  "Unable to find component: " ++ String.mk t

/-- Translation of `parse_term`: trim, dispatch on the first character
(`?` optional wrapper, `&` read or `&mut` write, otherwise presence),
resolve the name against `component_names`, and report names that do not
resolve while leaving the builder unchanged. The `fuel` argument bounds
the recursion through leading `?` characters; each step strips one
character, so `length + 1` fuel never runs out. -/
def parseTermF (comps : List (String × Nat)) : Nat → List Char → QueryBuilder →
    QueryBuilder × List String
  | 0, cs, b => (b, [unableMsg (trimChars cs)])
  | fuel + 1, cs, b =>
    match trimChars cs with
    | [] => (b, [unableMsg []])
    | c :: rest =>
      if c == '?' then
        let inner := parseTermF comps fuel rest { b with optFlag := true }
        ({ inner.1 with optFlag := b.optFlag }, inner.2)
      else if c == '&' then
        match splitWhitespaceChars (c :: rest) with
        | first :: parts =>
          if first == "&mut" then
            match parts with
            | s2 :: _ =>
              match lookupName comps s2 with
              | some id => (mut_id b id, [])
              | none => (b, [unableMsg (c :: rest)])
            | [] => (b, [unableMsg (c :: rest)])
          else
            match lookupName comps (first.drop 1) with
            | some id => (ref_id b id, [])
            | none => (b, [unableMsg (c :: rest)])
        | [] => (b, [unableMsg (c :: rest)])
      else
        match lookupName comps (String.mk (c :: rest)) with
        | some id => (with_id b id, [])
        | none => (b, [unableMsg (c :: rest)])

/-- Entry point of `parse_term` with enough fuel for its input. -/
def parseTerm (comps : List (String × Nat)) (cs : List Char) (b : QueryBuilder) :
    QueryBuilder × List String :=
  parseTermF comps (cs.length + 1) cs b

/-- Translation of the `builder.or(..)` call in `parse_query`: open a
disjunctive group, parse every `||`-separated sub-term into it, close
the group (modelled from the spec: each alternative added inside the
`or` scope becomes one disjunct of a single group). -/
def parseOr (comps : List (String × Nat)) (subs : List (List Char)) (b : QueryBuilder) :
    QueryBuilder × List String :=
  let opened : QueryBuilder := { b with curOr := some [] }
  let r := subs.foldl
    (fun acc sub =>
      let s := parseTerm comps sub acc.1
      (s.1, acc.2 ++ s.2))
    (opened, ([] : List String))
  ({ r.1 with curOr := b.curOr, groups := r.1.groups ++ [r.1.curOr.getD []] }, r.2)

/-- Translation of `parse_query`: split on commas; a comma piece with no
`||` is parsed as a single term, otherwise its `||`-separated sub-terms
form one `or` group. -/
def parseQuery (comps : List (String × Nat)) (cs : List Char) (b : QueryBuilder) :
    QueryBuilder × List String :=
  (splitOnChar ',' cs).foldl
    (fun acc term =>
      match splitOnPipes term [] with
      | [single] =>
        let r := parseTerm comps single acc.1
        (r.1, acc.2 ++ r.2)
      | subs =>
        let r := parseOr comps subs acc.1
        (r.1, acc.2 ++ r.2))
    (b, ([] : List String))

/-- Predicate compiled from a query string against the app's name map. -/
def buildOf (a : AppState) (input : String) : Option Pred :=
  build (parseQuery a.componentNames input.data initBuilder).1

/-- Rows yielded by the `q` command for a query string (empty when the
build is rejected). -/
def queryRows (a : AppState) (input : String) : List Row :=
  match buildOf a input with
  | none => []
  | some p => (runQuery p a.world.entities).2

/-- Translation of the `q` command: parse and build the query, run it
over the store mutating write-held buffers, and emit the parse reports
followed by one display line per matched row. -/
def queryCommand (a : AppState) (input : String) : AppState × List String :=
  let r := parseQuery a.componentNames input.data initBuilder
  match build r.1 with
  | none => (⟨a.world, a.componentNames, a.componentInfo⟩, r.2)
  | some p =>
    let q := runQuery p a.world.entities
    (⟨{ a.world with entities := q.1 }, a.componentNames, a.componentInfo⟩,
     r.2 ++ q.2.map (displayRow a.componentInfo))

/-! Concrete fixtures used by the closed theorems below. -/

/-- App with component `A` of one unit and one entity carrying `A = [5]`. -/
def appC1 : AppState :=
  (spawnCommand (createComponent emptyApp ("A") 1).1 [(("A"), [5])]).1

/-- App with `CompA` of three units and one entity carrying `[1,2,3]`. -/
def appC3 : AppState :=
  (spawnCommand (createComponent emptyApp ("CompA") 3).1 [(("CompA"), [1, 2, 3])]).1

/-- App with marker components `A` (id 0) and `B` (id 1) registered. -/
def appAB : AppState :=
  (createComponent (createComponent emptyApp ("A") 0).1 ("B") 0).1

/-- App with entities `E1` carrying only `A` (id 0), `E2` carrying only
`B` (id 1), `E3` carrying neither (id 2). -/
def appC6 : AppState :=
  (spawnCommand (spawnCommand (spawnCommand appAB [(("A"), [])]).1 [(("B"), [])]).1 []).1

/-- App with `E1` carrying `A` and `B` (id 0) and `E2` carrying only `A`
(id 1). -/
def appC7 : AppState :=
  (spawnCommand (spawnCommand appAB [(("A"), []), (("B"), [])]).1 [(("A"), [])]).1

/-- App with component `A` registered with two units. -/
def appC5 : AppState := (createComponent emptyApp ("A") 2).1

/-- Predicate holding `A` (id 0) with Write access. -/
def pW : Pred := [[⟨0, Access.write, false⟩]]

/-- Entity carrying one unit of component 0 with value 7. -/
def eW : Entity := ⟨0, [(0, [7])]⟩

/-- Predicate reading component 0 and requiring presence of component 1. -/
def p8 : Pred := [[⟨0, Access.read, false⟩], [⟨1, Access.presence, false⟩]]

/-- One-entity store for the Read/Presence idempotence witness. -/
def es8 : List Entity := [⟨0, [(0, [3]), (1, [])]⟩]

/-- Builder that has already recorded a Read term on component 0. -/
def bRW : QueryBuilder := addTerm initBuilder 0 Access.read

/-! Helper lemmas. -/

theorem has_applyWrites (e : Entity) (w : List Nat) (i : Nat) :
    Entity.has (applyWrites e w) i = Entity.has e i := by
  unfold Entity.has applyWrites
  induction e.comps with
  | nil => rfl
  | cons hd tl ih =>
    simp only [List.map_cons, List.any_cons, ih]
    cases h : w.contains hd.1 <;> simp [h]

theorem find?_map_incIf (w : List Nat) (i : Nat) (l : List (Nat × List Nat)) :
    Option.map (fun c : Nat × List Nat => c.2)
        ((l.map (fun c => if w.contains c.1 then (c.1, incBuf c.2) else c)).find?
          (fun c => c.1 == i)) =
      Option.map (fun buf => if w.contains i then incBuf buf else buf)
        (Option.map (fun c : Nat × List Nat => c.2) (l.find? (fun c => c.1 == i))) := by
  induction l with
  | nil => rfl
  | cons hd tl ih =>
    have hfst : (if w.contains hd.1 then (hd.1, incBuf hd.2) else hd).1 = hd.1 := by
      cases h : w.contains hd.1 <;> rfl
    cases hh : (hd.1 == i) with
    | false =>
      simp only [List.map_cons, List.find?_cons, hfst, hh, cond_false]
      exact ih
    | true =>
      have hi : hd.1 = i := by simpa using hh
      subst hi
      simp only [List.map_cons, List.find?_cons, hfst, hh, cond_true, Option.map_some']
      cases hw : w.contains hd.1 <;> simp [hw]

theorem lookupComp_applyWrites (e : Entity) (w : List Nat) (i : Nat) :
    lookupComp (applyWrites e w) i =
      (lookupComp e i).map (fun buf => if w.contains i then incBuf buf else buf) := by
  unfold lookupComp applyWrites
  exact find?_map_incIf w i e.comps

theorem termSat_applyWrites (e : Entity) (w : List Nat) (t : Term) :
    termSat (applyWrites e w) t = termSat e t := by
  unfold termSat
  rw [has_applyWrites]

theorem groupSat_applyWrites (e : Entity) (w : List Nat) (g : List Term) :
    groupSat (applyWrites e w) g = groupSat e g := by
  unfold groupSat
  rw [funext (termSat_applyWrites e w)]

theorem predMatch_applyWrites (e : Entity) (w : List Nat) (p : Pred) :
    predMatch (applyWrites e w) p = predMatch e p := by
  unfold predMatch
  rw [funext (groupSat_applyWrites e w)]

theorem mod_add_one_u64 (a : Nat) : (a % 2 ^ 64 + 1) % 2 ^ 64 = (a + 1) % 2 ^ 64 := by
  conv_rhs => rw [Nat.add_mod]
  norm_num

theorem writeIds_eq_nil {p : Pred} (h : ∀ t ∈ p.flatten, t.access ≠ Access.write) :
    writeIds p = [] := by
  unfold writeIds
  rw [List.filter_eq_nil_iff.mpr]
  · rfl
  · intro t ht
    simp only [beq_iff_eq]
    exact h t ht

theorem map_if_contains_nil (l : List (Nat × List Nat)) :
    l.map (fun c => if ([] : List Nat).contains c.1 then (c.1, incBuf c.2) else c) = l := by
  induction l with
  | nil => rfl
  | cons hd tl ih => simp [ih]

theorem applyWrites_nil (e : Entity) : applyWrites e [] = e := by
  unfold applyWrites
  rw [map_if_contains_nil]

theorem mkBuffer_length (len : Nat) (vals : List Nat) : (mkBuffer len vals).length = len := by
  simp [mkBuffer]
  omega

theorem mkBuffer_trailing (len : Nat) (vals : List Nat) :
    ∀ x ∈ (mkBuffer len vals).drop vals.length, x = 0 := by
  intro x hx
  rcases Nat.le_total vals.length len with hle | hle
  · rw [mkBuffer, List.take_of_length_le hle, List.drop_left] at hx
    exact List.eq_of_mem_replicate hx
  · rw [List.drop_eq_nil_of_le (by rw [mkBuffer_length]; exact hle)] at hx
    cases hx

theorem spawnFold_mem (a : AppState) (request : List (String × List Nat))
    (name : String) (vals : List Nat) (id : Nat) (info : ComponentInfo)
    (hmem : (name, vals) ∈ request)
    (hlook : lookupName a.componentNames name = some id)
    (hinfo : getInfo a.world id = some info) :
    (id, mkBuffer (info.layout.size / 8) vals) ∈ (spawnFold a request).1 := by
  induction request with
  | nil => cases hmem
  | cons hd tl ih =>
    rcases List.mem_cons.mp hmem with heq | hmem'
    · rcases heq
      simp [spawnFold, hlook, hinfo]
    · have htl := ih hmem'
      obtain ⟨n2, v2⟩ := hd
      cases hh : lookupName a.componentNames n2 with
      | none => simp [spawnFold, hh, htl]
      | some id2 =>
        cases hg : getInfo a.world id2 with
        | none => simp [spawnFold, hh, hg, htl]
        | some info2 => simp [spawnFold, hh, hg, htl]

theorem trimChars_length_le (cs : List Char) : (trimChars cs).length ≤ cs.length := by
  unfold trimChars
  calc ((cs.dropWhile Char.isWhitespace).reverse.dropWhile Char.isWhitespace).reverse.length
      = ((cs.dropWhile Char.isWhitespace).reverse.dropWhile Char.isWhitespace).length :=
        List.length_reverse _
    _ ≤ (cs.dropWhile Char.isWhitespace).reverse.length :=
        (List.dropWhile_sublist _).length_le
    _ = (cs.dropWhile Char.isWhitespace).length := List.length_reverse _
    _ ≤ cs.length := (List.dropWhile_sublist _).length_le

theorem parseTermF_fuel (comps : List (String × Nat)) :
    ∀ (f : Nat) (cs : List Char) (b : QueryBuilder), cs.length < f →
      parseTermF comps f cs b = parseTerm comps cs b := by
  intro f
  induction f using Nat.strong_induction_on with
  | _ f ih =>
    intro cs b hf
    cases f with
    | zero => omega
    | succ n =>
      show parseTermF comps (n + 1) cs b = parseTermF comps (cs.length + 1) cs b
      cases hts : trimChars cs with
      | nil =>
        simp only [parseTermF]
        rw [hts]
      | cons c rest =>
        have hlen : rest.length + 1 ≤ cs.length := by
          have h1 := trimChars_length_le cs
          rw [hts] at h1
          simpa using h1
        cases hq : c == '?' with
        | false =>
          simp only [parseTermF]
          rw [hts]
          simp [hq]
        | true =>
          have e1 : parseTermF comps n rest { b with optFlag := true } =
              parseTerm comps rest { b with optFlag := true } :=
            ih n (by omega) rest _ (by omega)
          have e2 : parseTermF comps cs.length rest { b with optFlag := true } =
              parseTerm comps rest { b with optFlag := true } :=
            ih cs.length (by omega) rest _ (by omega)
          simp only [parseTermF]
          rw [hts]
          simp [hq, e1, e2]

theorem parseTermF_skip_or_report (comps : List (String × Nat)) :
    ∀ (fuel : Nat) (cs : List Char) (b : QueryBuilder),
      (parseTermF comps fuel cs b).2 = [] ∨
      ((parseTermF comps fuel cs b).1 = b ∧
        ∃ t, (parseTermF comps fuel cs b).2 = [unableMsg t]) := by
  intro fuel
  induction fuel with
  | zero =>
    intro cs b
    exact Or.inr ⟨rfl, trimChars cs, rfl⟩
  | succ n ih =>
    intro cs b
    cases hts : trimChars cs with
    | nil =>
      have hred : parseTermF comps (n + 1) cs b = (b, [unableMsg []]) := by
        simp only [parseTermF]
        rw [hts]
      rw [hred]
      exact Or.inr ⟨rfl, [], rfl⟩
    | cons c rest =>
      cases hq : c == '?' with
      | true =>
        have hred : parseTermF comps (n + 1) cs b =
            ({ (parseTermF comps n rest { b with optFlag := true }).1 with
                optFlag := b.optFlag },
             (parseTermF comps n rest { b with optFlag := true }).2) := by
          simp only [parseTermF]
          rw [hts]
          simp [hq]
        rw [hred]
        rcases ih rest { b with optFlag := true } with h | ⟨h1, t, h2⟩
        · exact Or.inl h
        · refine Or.inr ⟨?_, t, h2⟩
          rw [h1]
      | false =>
        cases hand : c == '&' with
        | true =>
          cases hsp : splitWhitespaceChars (c :: rest) with
          | nil =>
            have hred : parseTermF comps (n + 1) cs b = (b, [unableMsg (c :: rest)]) := by
              simp only [parseTermF]
              rw [hts]
              simp [hq, hand, hsp]
            rw [hred]
            exact Or.inr ⟨rfl, c :: rest, rfl⟩
          | cons first parts =>
            cases hm : first == "&mut" with
            | true =>
              cases parts with
              | nil =>
                have hred : parseTermF comps (n + 1) cs b =
                    (b, [unableMsg (c :: rest)]) := by
                  simp only [parseTermF]
                  rw [hts]
                  simp [hq, hand, hsp, hm]
                rw [hred]
                exact Or.inr ⟨rfl, c :: rest, rfl⟩
              | cons s2 ps =>
                cases hlk : lookupName comps s2 with
                | none =>
                  have hred : parseTermF comps (n + 1) cs b =
                      (b, [unableMsg (c :: rest)]) := by
                    simp only [parseTermF]
                    rw [hts]
                    simp [hq, hand, hsp, hm, hlk]
                  rw [hred]
                  exact Or.inr ⟨rfl, c :: rest, rfl⟩
                | some id =>
                  have hred : parseTermF comps (n + 1) cs b = (mut_id b id, []) := by
                    simp only [parseTermF]
                    rw [hts]
                    simp [hq, hand, hsp, hm, hlk]
                  rw [hred]
                  exact Or.inl rfl
            | false =>
              cases hlk : lookupName comps (first.drop 1) with
              | none =>
                have hred : parseTermF comps (n + 1) cs b =
                    (b, [unableMsg (c :: rest)]) := by
                  simp only [parseTermF]
                  rw [hts]
                  simp [hq, hand, hsp, hm, hlk]
                rw [hred]
                exact Or.inr ⟨rfl, c :: rest, rfl⟩
              | some id =>
                have hred : parseTermF comps (n + 1) cs b = (ref_id b id, []) := by
                  simp only [parseTermF]
                  rw [hts]
                  simp [hq, hand, hsp, hm, hlk]
                rw [hred]
                exact Or.inl rfl
        | false =>
          cases hlk : lookupName comps (String.mk (c :: rest)) with
          | none =>
            have hred : parseTermF comps (n + 1) cs b = (b, [unableMsg (c :: rest)]) := by
              simp only [parseTermF]
              rw [hts]
              simp [hq, hand, hlk]
            rw [hred]
            exact Or.inr ⟨rfl, c :: rest, rfl⟩
          | some id =>
            have hred : parseTermF comps (n + 1) cs b = (with_id b id, []) := by
              simp only [parseTermF]
              rw [hts]
              simp [hq, hand, hlk]
            rw [hred]
            exact Or.inl rfl

/-! Claim theorems. -/

/-- C1, counterexample. The claim says a query containing a term whose
component name does not resolve matches zero entities. In the app with
component `A` registered and one entity spawned, the query `NotReal`
(whose only term is unresolved) yields one row, not zero: the unresolved
term is skipped, so the built query is empty and matches every entity
(with an empty row), while the name is reported. -/
theorem c1_counterexample :
    queryRows appC1 ("NotReal") = [⟨0, []⟩] ∧
    (queryRows appC1 ("NotReal")).length ≠ 0 ∧
    (parseQuery appC1.componentNames ("NotReal").data initBuilder).2 =
      [("Unable to find component: NotReal")] := by
  refine ⟨by decide, by decide, by decide⟩

/-- C1, amended. For every query term whose component name does not
resolve in the name map, `parse_term` reports the unresolved name and
leaves the builder unchanged, in each of its syntactic forms: a bare
name (Presence), `&Name` (Read), `&mut Name` (Write, including a missing
name after `&mut`), and a `?`-wrapped term, which parses its remainder
under the optional flag and restores it, so an unresolved `?Name` also
skips and reports. In general every parse of a term either resolves it
with no report, or leaves the builder unchanged and emits exactly one
unresolved-name report: a skipped term is never treated as a wildcard,
and the built query behaves as if the malformed term were absent. -/
theorem c1_unresolved_skip_report :
    (∀ (comps : List (String × Nat)) (b : QueryBuilder) (cs : List Char)
        (c : Char) (rest : List Char),
      trimChars cs = c :: rest → (c == '?') = false → (c == '&') = false →
      lookupName comps (String.mk (c :: rest)) = none →
      parseTerm comps cs b = (b, [unableMsg (c :: rest)])) ∧
    (∀ (comps : List (String × Nat)) (b : QueryBuilder) (cs rest : List Char)
        (first : String) (parts : List String),
      trimChars cs = '&' :: rest →
      splitWhitespaceChars ('&' :: rest) = first :: parts →
      (first == "&mut") = false →
      lookupName comps (first.drop 1) = none →
      parseTerm comps cs b = (b, [unableMsg ('&' :: rest)])) ∧
    (∀ (comps : List (String × Nat)) (b : QueryBuilder) (cs rest : List Char)
        (parts : List String),
      trimChars cs = '&' :: rest →
      splitWhitespaceChars ('&' :: rest) = ("&mut") :: parts →
      (∀ s2 ∈ parts.head?, lookupName comps s2 = none) →
      parseTerm comps cs b = (b, [unableMsg ('&' :: rest)])) ∧
    (∀ (comps : List (String × Nat)) (b : QueryBuilder) (cs rest : List Char),
      trimChars cs = '?' :: rest →
      parseTerm comps cs b =
        ({ (parseTerm comps rest { b with optFlag := true }).1 with
            optFlag := b.optFlag },
         (parseTerm comps rest { b with optFlag := true }).2)) ∧
    (∀ (comps : List (String × Nat)) (b : QueryBuilder) (cs : List Char),
      (parseTerm comps cs b).2 = [] ∨
      ((parseTerm comps cs b).1 = b ∧
        ∃ t, (parseTerm comps cs b).2 = [unableMsg t])) := by
  refine ⟨?_, ?_, ?_, ?_, ?_⟩
  · intro comps b cs c rest h hq ha hl
    unfold parseTerm parseTermF
    rw [h]
    simp [hq, ha, hl]
  · intro comps b cs rest first parts h hsp hm hl
    have hq : ('&' == '?') = false := by decide
    have hand : ('&' == '&') = true := by decide
    unfold parseTerm parseTermF
    rw [h]
    simp [hq, hand, hsp, hm, hl]
  · intro comps b cs rest parts h hsp hl
    have hq : ('&' == '?') = false := by decide
    have hand : ('&' == '&') = true := by decide
    have hmut : (("&mut" : String) == "&mut") = true := by decide
    unfold parseTerm parseTermF
    rw [h]
    cases parts with
    | nil => simp [hq, hand, hsp, hmut]
    | cons s2 ps =>
      have hl2 : lookupName comps s2 = none := hl s2 rfl
      simp [hq, hand, hsp, hmut, hl2]
  · intro comps b cs rest h
    have hlen : rest.length + 1 ≤ cs.length := by
      have h1 := trimChars_length_le cs
      rw [h] at h1
      simpa using h1
    have e1 : parseTermF comps cs.length rest { b with optFlag := true } =
        parseTerm comps rest { b with optFlag := true } :=
      parseTermF_fuel comps cs.length rest _ (by omega)
    show parseTermF comps (cs.length + 1) cs b = _
    simp only [parseTermF]
    rw [h]
    have hq : ('?' == '?') = true := by decide
    simp [hq, e1]
  · intro comps b cs
    exact parseTermF_skip_or_report comps (cs.length + 1) cs b

/-- C1, witness for the amended theorem: against a registry holding only
`A`, the unresolved query terms `NotReal`, `&NotReal`, `&mut NotReal`
and `?NotReal` all leave the builder untouched and report the name. -/
theorem c1_witness :
    parseTerm [(("A"), 0)] ("NotReal").data initBuilder =
      (initBuilder, [unableMsg ('N' :: ("otReal").data)]) ∧
    parseTerm [(("A"), 0)] ("&NotReal").data initBuilder =
      (initBuilder, [unableMsg ('&' :: ("NotReal").data)]) ∧
    parseTerm [(("A"), 0)] ("&mut NotReal").data initBuilder =
      (initBuilder, [unableMsg ('&' :: ("mut NotReal").data)]) ∧
    parseTerm [(("A"), 0)] ("?NotReal").data initBuilder =
      (initBuilder, [unableMsg ('N' :: ("otReal").data)]) := by
  obtain ⟨h1, h2, h3, h4, h5⟩ := c1_unresolved_skip_report
  refine ⟨?_, ?_, ?_, ?_⟩
  · exact h1 [(("A"), 0)] initBuilder ("NotReal").data 'N' (("otReal").data)
      (by decide) (by decide) (by decide) (by decide)
  · exact h2 [(("A"), 0)] initBuilder ("&NotReal").data (("NotReal").data)
      ("&NotReal") [] (by decide) (by decide) (by decide) (by decide)
  · refine h3 [(("A"), 0)] initBuilder ("&mut NotReal").data (("mut NotReal").data)
      [("NotReal")] (by decide) (by decide) ?_
    intro s2 hs2
    simp only [List.head?] at hs2
    cases hs2
    decide
  · have hin := h1 [(("A"), 0)] { initBuilder with optFlag := true }
      (("NotReal").data) 'N' (("otReal").data) (by decide) (by decide) (by decide) (by decide)
    have hout := h4 [(("A"), 0)] initBuilder (("?NotReal").data) (("NotReal").data)
      (by decide)
    rw [hout, hin]

/-- C2. For every compiled predicate holding component `id` with Write
access and every matching entity carrying a buffer of 8-byte units for
`id`, running the query `n` times increments every unit of that buffer
by one per execution, taking unit value `v` to `(v + n) % 2 ^ 64`. -/
theorem c2_write_increment (p : Pred) (e : Entity) (id : Nat) (buf : List Nat) (n : Nat)
    (hm : predMatch e p = true) (hl : lookupComp e id = some buf)
    (hw : id ∈ writeIds p) (hv : ∀ v ∈ buf, v < 2 ^ 64) :
    lookupComp ((stepEntity p)^[n] e) id =
      some (buf.map (fun v => (v + n) % 2 ^ 64)) := by
  have hcont : (writeIds p).contains id = true := by
    simpa using hw
  have main : ∀ m : Nat,
      predMatch ((stepEntity p)^[m] e) p = true ∧
      lookupComp ((stepEntity p)^[m] e) id =
        some (buf.map (fun v => (v + m) % 2 ^ 64)) := by
    intro m
    induction m with
    | zero =>
      refine ⟨by simpa using hm, ?_⟩
      rw [Function.iterate_zero_apply, hl]
      have hb : buf.map (fun v => (v + 0) % 2 ^ 64) = buf := by
        have hcong : ∀ v ∈ buf, (v + 0) % 2 ^ 64 = v := fun v hvm => by
          simpa using Nat.mod_eq_of_lt (hv v hvm)
        rw [List.map_congr_left hcong, List.map_id']
      rw [hb]
    | succ m ih =>
      obtain ⟨ihm, ihl⟩ := ih
      rw [Function.iterate_succ_apply']
      have hstep : stepEntity p ((stepEntity p)^[m] e) =
          applyWrites ((stepEntity p)^[m] e) (writeIds p) := by
        rw [stepEntity, if_pos ihm]
      refine ⟨?_, ?_⟩
      · rw [hstep, predMatch_applyWrites]
        exact ihm
      · rw [hstep, lookupComp_applyWrites, ihl, Option.map_some']
        rw [if_pos hcont]
        unfold incBuf
        rw [List.map_map]
        refine congrArg some ?_
        apply List.map_congr_left
        intro v hv2
        show ((v + m) % 2 ^ 64 + 1) % 2 ^ 64 = (v + (m + 1)) % 2 ^ 64
        rw [mod_add_one_u64, Nat.add_assoc]
  exact (main n).2

/-- C2, witness: a write query on component 0 run twice takes the unit
value 7 to 9. -/
theorem c2_witness :
    lookupComp ((stepEntity pW)^[2] eW) 0 =
      some ([7].map (fun v => (v + 2) % 2 ^ 64)) :=
  c2_write_increment pW eW 0 [7] 2 (by decide) (by decide) (by decide) (by decide)

/-- C3. Concrete scenario: `CompA` registered with three units, one
entity spawned with `[1,2,3]`; after one run of the query `&mut CompA`
the stored buffer is `[2,3,4]` and the displayed row shows the
post-increment values `CompA: [2, 3, 4]`. -/
theorem c3_concrete_scenario :
    (queryCommand appC3 ("&mut CompA")).1.world.entities = [⟨0, [(0, [2, 3, 4])]⟩] ∧
    (queryCommand appC3 ("&mut CompA")).2 = [("CompA: [2, 3, 4]")] := by
  refine ⟨by decide, by decide⟩

/-- C4. Registering any `(name, element_count)` yields a component whose
Layout Descriptor has size `8 * element_count` bytes and 8-byte
alignment, and describing the returned identity yields exactly that
descriptor. -/
theorem c4_register_describe (a : AppState) (name : String) (n : Nat) :
    getInfo ((createComponent a name n).1).world ((createComponent a name n).2) =
      some ⟨name, ⟨8 * n, 8⟩⟩ ∧
    (layoutArrayU64 n).size = 8 * n ∧ (layoutArrayU64 n).align = 8 := by
  refine ⟨?_, rfl, rfl⟩
  simp [createComponent, initComponent, getInfo, layoutArrayU64, List.find?]

/-- C5. Every resolvable spawn entry `(name, vals)` installs on the new
entity the buffer `mkBuffer len vals` where `len` is the component's
declared element count: the value list truncated to `len` and zero-padded
at the tail; the buffer always has exactly `len` units, a value list that
is at least `len` long is truncated, a shorter one is zero-padded, and
every unit past the supplied values is zero. -/
theorem c5_spawn_pad_truncate (a : AppState) (request : List (String × List Nat))
    (name : String) (vals : List Nat) (id : Nat) (info : ComponentInfo)
    (hmem : (name, vals) ∈ request)
    (hlook : lookupName a.componentNames name = some id)
    (hinfo : getInfo a.world id = some info) :
    (id, mkBuffer (info.layout.size / 8) vals) ∈ (spawnFold a request).1 ∧
    (mkBuffer (info.layout.size / 8) vals).length = info.layout.size / 8 ∧
    (info.layout.size / 8 ≤ vals.length →
      mkBuffer (info.layout.size / 8) vals = vals.take (info.layout.size / 8)) ∧
    (vals.length ≤ info.layout.size / 8 →
      mkBuffer (info.layout.size / 8) vals =
        vals ++ List.replicate (info.layout.size / 8 - vals.length) 0) ∧
    ∀ x ∈ (mkBuffer (info.layout.size / 8) vals).drop vals.length, x = 0 := by
  refine ⟨spawnFold_mem a request name vals id info hmem hlook hinfo,
    mkBuffer_length _ _, ?_, ?_, mkBuffer_trailing _ _⟩
  · intro hle
    simp [mkBuffer, Nat.sub_eq_zero_of_le hle]
  · intro hle
    rw [mkBuffer, List.take_of_length_le hle]

/-- C5, witness: component `A` declared with two units, spawned with the
single value 5: the installed buffer is `[5, 0]`. -/
theorem c5_witness :
    (0, mkBuffer ((⟨("A"), ⟨16, 8⟩⟩ : ComponentInfo).layout.size / 8) [5]) ∈
      (spawnFold appC5 [(("A"), [5])]).1 ∧
    (mkBuffer ((⟨("A"), ⟨16, 8⟩⟩ : ComponentInfo).layout.size / 8) [5]).length =
      (⟨("A"), ⟨16, 8⟩⟩ : ComponentInfo).layout.size / 8 ∧
    ((⟨("A"), ⟨16, 8⟩⟩ : ComponentInfo).layout.size / 8 ≤ List.length [5] →
      mkBuffer ((⟨("A"), ⟨16, 8⟩⟩ : ComponentInfo).layout.size / 8) [5] =
        List.take ((⟨("A"), ⟨16, 8⟩⟩ : ComponentInfo).layout.size / 8) [5]) ∧
    (List.length [5] ≤ (⟨("A"), ⟨16, 8⟩⟩ : ComponentInfo).layout.size / 8 →
      mkBuffer ((⟨("A"), ⟨16, 8⟩⟩ : ComponentInfo).layout.size / 8) [5] =
        [5] ++ List.replicate ((⟨("A"), ⟨16, 8⟩⟩ : ComponentInfo).layout.size / 8 -
          List.length [5]) 0) ∧
    ∀ x ∈ (mkBuffer ((⟨("A"), ⟨16, 8⟩⟩ : ComponentInfo).layout.size / 8) [5]).drop
        (List.length [5]), x = 0 :=
  c5_spawn_pad_truncate appC5 [(("A"), [5])] ("A") [5] 0 ⟨("A"), ⟨16, 8⟩⟩
    (by decide) (by decide) (by decide)

/-- C6. With `A` (id 0) and `B` (id 1) registered and entities `E1` (id
0, has `A` only), `E2` (id 1, has `B` only), `E3` (id 2, has neither),
the query `A || B` compiles to the single disjunctive group over `A` and
`B`, its rows are exactly those of `E1` and `E2`, and in general an
entity matches that predicate iff it carries `A` or carries `B`. -/
theorem c6_disjunction :
    buildOf appC6 ("A || B") =
      some [[⟨0, Access.presence, false⟩, ⟨1, Access.presence, false⟩]] ∧
    (queryRows appC6 ("A || B")).map Row.entity = [0, 1] ∧
    ∀ e : Entity,
      predMatch e [[⟨0, Access.presence, false⟩, ⟨1, Access.presence, false⟩]] =
        (e.has 0 || e.has 1) := by
  refine ⟨by decide, by decide, ?_⟩
  intro e
  simp [predMatch, groupSat, termSat]

/-- C7. With `A` (id 0) and `B` (id 1) registered, `E1` (id 0) carrying
both and `E2` (id 1) carrying only `A`, the query `A, ?B` compiles to a
mandatory `A` term and an optional `B` term, matches both entities,
yields a `B` view in `E1`'s row but not in `E2`'s, and in general an
entity matches that predicate iff it carries `A` (the optional term
never constrains matching). -/
theorem c7_optional :
    buildOf appC7 ("A, ?B") =
      some [[⟨0, Access.presence, false⟩], [⟨1, Access.presence, true⟩]] ∧
    queryRows appC7 ("A, ?B") =
      [⟨0, [⟨0, Access.presence, none⟩, ⟨1, Access.presence, none⟩]⟩,
       ⟨1, [⟨0, Access.presence, none⟩]⟩] ∧
    ((queryRows appC7 ("A, ?B")).map
      (fun r => r.views.any (fun v => v.id == 1))) = [true, false] ∧
    ∀ e : Entity,
      predMatch e [[⟨0, Access.presence, false⟩], [⟨1, Access.presence, true⟩]] =
        e.has 0 := by
  refine ⟨by decide, by decide, by decide, ?_⟩
  intro e
  simp [predMatch, groupSat, termSat]

/-- C8. A predicate with no Write terms leaves every component buffer in
the store unmodified, and running it twice in succession yields
identical row sequences both times. -/
theorem c8_read_idempotent (p : Pred) (es : List Entity)
    (h : ∀ t ∈ p.flatten, t.access ≠ Access.write) :
    (runQuery p es).1 = es ∧
    (runQuery p ((runQuery p es).1)).2 = (runQuery p es).2 := by
  have hw := writeIds_eq_nil h
  have hstep : ∀ e, stepEntity p e = e := fun e => by
    rw [stepEntity, hw, applyWrites_nil]
    exact ite_self e
  have h1 : (runQuery p es).1 = es := by
    show es.map (stepEntity p) = es
    rw [funext hstep, List.map_id']
  refine ⟨h1, ?_⟩
  rw [h1]

/-- C8, witness: a Read term on component 0 and a Presence term on
component 1 leave the one-entity store unchanged and produce the same
rows on a second run. -/
theorem c8_witness :
    (runQuery p8 es8).1 = es8 ∧
    (runQuery p8 ((runQuery p8 es8).1)).2 = (runQuery p8 es8).2 :=
  c8_read_idempotent p8 es8 (by decide)

/-- C9. Requesting a component identity that the builder already holds
under a different access mode marks the builder conflicted, and the
terminal build is rejected (returns no compiled query). -/
theorem c9_conflicting_access (b : QueryBuilder) (id : Nat) (a : Access)
    (h : (allTerms b).any (fun t => t.id == id && !(t.access == a)) = true) :
    build (addTerm b id a) = none := by
  unfold addTerm
  cases hc : b.curOr <;> simp [build, h, hc]

/-- C9, witness: adding Write access on component 0 to a builder that
already reads component 0 makes the build fail. -/
theorem c9_witness : build (addTerm bRW 0 Access.write) = none :=
  c9_conflicting_access bRW 0 Access.write (by decide)

/-- C10. Every spawn request creates exactly one new entity carrying the
resolved buffers, unconditionally; when every requested name is
unresolvable the new entity carries no components and one report per
entry is emitted; and the new entity matches every predicate in which
each group has an optional term (queries with no mandatory terms). -/
theorem c10_spawn_unconditional (a : AppState) (request : List (String × List Nat)) :
    (spawnCommand a request).1.world.entities =
      a.world.entities ++ [⟨a.world.nextEntityId, (spawnFold a request).1⟩] ∧
    ((∀ e ∈ request, lookupName a.componentNames e.1 = none) →
      (spawnFold a request).1 = [] ∧
      (spawnFold a request).2 =
        request.map (fun e => "Component " ++ e.1 ++ " does not exist")) ∧
    (∀ p : Pred, (∀ g ∈ p, ∃ t, t ∈ g ∧ t.opt = true) →
      predMatch ⟨a.world.nextEntityId, (spawnFold a request).1⟩ p = true) := by
  refine ⟨rfl, ?_, ?_⟩
  · intro hall
    induction request with
    | nil => exact ⟨rfl, rfl⟩
    | cons hd tl ih =>
      obtain ⟨n2, v2⟩ := hd
      have hhd := hall (n2, v2) (List.mem_cons_self _ _)
      have htl := ih (fun e he => hall e (List.mem_cons_of_mem _ he))
      refine ⟨?_, ?_⟩
      · simp [spawnFold, hhd, htl.1]
      · simp [spawnFold, hhd, htl.2]
  · intro p hp
    unfold predMatch
    rw [List.all_eq_true]
    intro g hg
    obtain ⟨t, ht, hopt⟩ := hp g hg
    unfold groupSat
    rw [List.any_eq_true]
    exact ⟨t, ht, by simp [termSat, hopt]⟩

/-- C10, witness: a spawn request whose only component name is unknown
still creates a new component-less entity, which matches the empty
predicate. -/
theorem c10_witness :
    (spawnCommand emptyApp [(("Ghost"), [1, 2])]).1.world.entities = [⟨0, []⟩] ∧
    (spawnFold emptyApp [(("Ghost"), [1, 2])]).1 = [] ∧
    predMatch ⟨0, []⟩ ([] : Pred) = true := by
  have h := c10_spawn_unconditional emptyApp [(("Ghost"), [1, 2])]
  have h2 := h.2.1 (by decide)
  refine ⟨?_, h2.1, h.2.2 [] (by simp)⟩
  have h1 := h.1
  rw [h2.1] at h1
  simpa using h1

end DynamicEcs
